import Mathlib

/-!
Verification of the among-us client networking code (a Rust workspace with a
reliable-UDP transport, a binary codec, and a game-session state machine)
against its natural-language specification.

The development is a shallow embedding: byte buffers are lists of naturals
(each < 256 for well-formed data), Rust machine integers are modelled as
`Nat` / `Int` with explicit two's-complement reductions mod 2^32 where the
source relies on wrap-around, and fallible reads return `Except`.  A panic
(`panic!`, `unreachable!`, an asserting `unwrap`) is modelled as the
distinguished outcome `ReadErr.panicked`, kept separate from the `io::Error`
results the source propagates with `?`.
-/

deriving instance DecidableEq for Except

namespace AmongUs

/-- Outcome of a fallible codec operation, mirroring `std::io::Error` kinds
the source produces (`UnexpectedEof`, `InvalidData`) plus a distinguished
marker for aborts: a Rust panic is not an `io::Error`, so it gets its own
constructor to keep "returns an error" and "aborts" apart. -/
inductive ReadErr where
  | unexpectedEof
  | invalidData
  | panicked
  deriving DecidableEq, Repr

/-- Result of a read: the value plus the remaining bytes, or an error. -/
abbrev ReadResult (α : Type) := Except ReadErr (α × List Nat)

/-- `PacketReader::read_u8` over a `&[u8]` source (reader.rs:73): one byte or
`UnexpectedEof`. -/
def readU8 : List Nat → ReadResult Nat
  | [] => .error .unexpectedEof
  | b :: rest => .ok (b, rest)

/-- `PacketReader::read_u16` (reader.rs:81): two bytes, little-endian. -/
def readU16 : List Nat → ReadResult Nat
  | b0 :: b1 :: rest => .ok (b0 + b1 * 256, rest)
  | _ => .error .unexpectedEof

/-- `PacketReader::read_u16_be` (reader.rs:89): two bytes, big-endian. -/
def readU16be : List Nat → ReadResult Nat
  | b0 :: b1 :: rest => .ok (b0 * 256 + b1, rest)
  | _ => .error .unexpectedEof

/-- `<&[u8] as PacketRead>::read_slice` (reader.rs:213): take `len` bytes or
fail with `UnexpectedEof` ("Tried to read out of bound slice"). -/
def readSlice (len : Nat) (bs : List Nat) : ReadResult (List Nat) :=
  if len ≤ bs.length then .ok (bs.take len, bs.drop len) else .error .unexpectedEof

/-- `PacketReader::read_message` (reader.rs:23): u16 length, u8 tag, then
`length` bytes of payload handed back as a nested reader. -/
def readMessage (bs : List Nat) : ReadResult (Nat × List Nat) :=
  match readU16 bs with
  | .error e => .error e
  | .ok (length, bs) =>
    match readU8 bs with
    | .error e => .error e
    | .ok (tag, bs) =>
      match readSlice length bs with
      | .error e => .error e
      | .ok (data, bs) => .ok ((tag, data), bs)

/-- `PacketReader::read_bool` (reader.rs:63): byte 0 is `false`, byte 1 is
`true`, and any other byte hits `panic!("Unexpected value for read_bool")`. -/
def readBool (bs : List Nat) : ReadResult Bool :=
  match readU8 bs with
  | .error e => .error e
  | .ok (0, rest) => .ok (false, rest)
  | .ok (1, rest) => .ok (true, rest)
  | .ok (_, _) => .error .panicked

/-- `PacketReader::read_u32_encoded` (reader.rs:139), the 7-bit varint loop.
The accumulation `value |= ((byte & 127) as u32) << offset` is u32
arithmetic: the shift amount is masked mod 32 and the result reduced mod 2^32
(release-build semantics of the source; a debug build would abort on the
shift-amount overflow that occurs once `offset` reaches 35).  The loop exits
when the continuation bit is unset or `offset > 28`. -/
def readU32EncodedGo (offset value : Nat) : List Nat → ReadResult Nat
  | [] => .error .unexpectedEof
  | b :: rest =>
    let value := (value ||| ((b &&& 127) <<< (offset % 32))) % 2 ^ 32
    if b &&& 128 = 0 ∨ 28 < offset then .ok (value, rest)
    else readU32EncodedGo (offset + 7) value rest

/-- `PacketReader::read_u32_encoded` from the start of a buffer. -/
def readU32Encoded (bs : List Nat) : ReadResult Nat :=
  readU32EncodedGo 0 0 bs

/-- Little-endian byte pair of a u16 value, as produced by
`u16::to_le_bytes` (the `% 256` reductions reflect the u16/u8 types). -/
def u16le (v : Nat) : List Nat := [v % 256, v / 256 % 256]

/-- Two's-complement 32-bit pattern of a Rust `i32` value held as an `Int`. -/
def u32ofInt (v : Int) : Nat := (v % 4294967296).toNat

/-- Reinterpret a 32-bit pattern as a signed `i32` value. -/
def i32ofBits (n : Nat) : Int :=
  if n < 2147483648 then (n : Int) else (n : Int) - 4294967296

/-- Rust `i32` bitwise and. -/
def i32and (a b : Int) : Int := i32ofBits (u32ofInt a &&& u32ofInt b)

/-- Rust `i32` bitwise or. -/
def i32or (a b : Int) : Int := i32ofBits (u32ofInt a ||| u32ofInt b)

/-- Rust `i32` left shift by a constant amount < 32 (bits shifted out of the
top are discarded). -/
def i32shl (a : Int) (n : Nat) : Int := i32ofBits ((u32ofInt a <<< n) % 4294967296)

/-- Rust `i32` arithmetic right shift: floor division by 2^n, which for the
positive divisor coincides with Lean's Euclidean `/` on `Int`. -/
def i32asr (a : Int) (n : Nat) : Int := a / ((2 ^ n : Nat) : Int)

/-- `i32::to_le_bytes` of an `i32` value. -/
def i32leBytes (v : Int) : List Nat :=
  let p := u32ofInt v
  [p % 256, p / 256 % 256, p / 65536 % 256, p / 16777216 % 256]

/-- The ordered 26-letter game-code alphabet (objects.rs:36). -/
def CHAR_LOOKUP : List Char :=
  ['Q', 'W', 'X', 'R', 'T', 'Y', 'L', 'P', 'E', 'S', 'D', 'F', 'G', 'H', 'U',
   'J', 'K', 'Z', 'O', 'C', 'V', 'B', 'I', 'N', 'M', 'A']

/-- The 6/4 char ID used for Among Us games (objects.rs:32): a 32-bit signed
value, negative for V2 (6-character) codes. -/
structure GameId where
  id : Int
  deriving DecidableEq, Repr

/-- `GameId::from_chars` (objects.rs:42) on the string's character list.  For
6 characters: positions in `CHAR_LOOKUP` (the source unwraps the position
lookup, so only alphabet characters are meaningful) are folded into `lower`
and `upper` and combined with `lower | (upper << 10) | i32::MIN` in i32
arithmetic.  For 4 characters: one character per byte, little-endian.  Any
other length panics in the source; here it is mapped to id 0. -/
def GameId.fromChars (chars : List Char) : GameId :=
  if chars.length = 6 then
    let indexes : List Int := chars.map fun c => ((CHAR_LOOKUP.indexOf c : Nat) : Int)
    let lower : Int := indexes.getD 1 0 * 26 + indexes.getD 0 0
    let upper : Int :=
      ((indexes.getD 5 0 * 26 + indexes.getD 4 0) * 26 + indexes.getD 3 0) * 26
        + indexes.getD 2 0
    ⟨i32or (i32or lower (i32shl upper 10)) (-2147483648)⟩
  else if chars.length = 4 then
    ⟨(chars.enum.foldl (fun acc p => i32or acc (i32shl ((p.2.toNat : Int)) (8 * p.1))) 0)⟩
  else
    ⟨0⟩

/-- The character sequence produced by `GameId`'s `Display` implementation
(objects.rs:84); the source collects exactly these characters into the output
string.  `id < -1` selects the V2 branch.  All the division and remainder
operands in the source are non-negative (they arise from masking with
`0x3ff` / `0xfffff` / `255`), so Rust's truncating `/` and `%` agree with the
Euclidean operators used here. -/
def GameId.displayChars (g : GameId) : List Char :=
  if g.id < -1 then
    let upperHalf := i32and (i32asr g.id 10) 0xfffff
    let indexes : List Int :=
      [i32and g.id 0x3ff % 26,
       i32and g.id 0x3ff / 0x1a % 26,
       upperHalf % 26,
       upperHalf / 0x1a % 26,
       upperHalf / 0x2a4 % 26,
       upperHalf / 0x44a8 % 26]
    indexes.map fun i => CHAR_LOOKUP.getD i.toNat ' '
  else
    [i32and g.id 255, i32and (i32asr g.id 8) 255,
     i32and (i32asr g.id 16) 255, i32and (i32asr g.id 24) 255].map
      fun i => Char.ofNat i.toNat

/-- The binary writer (reader.rs:269): a byte cursor plus the stack of open
message start positions (`VecDeque` used as a LIFO stack via
`push_back`/`pop_back`). -/
structure PacketWriter where
  data : List Nat
  pos : Nat
  messageStarts : List Nat
  deriving DecidableEq, Repr

/-- `PacketWriter::new`. -/
def PacketWriter.new : PacketWriter := ⟨[], 0, []⟩

/-- A write through `Cursor<Vec<u8>>` at position `pos`: overwrite the bytes
under the cursor and extend the buffer as needed (faithful whenever
`pos ≤ data.length`, which holds throughout the writer's use). -/
def cursorWrite (data : List Nat) (pos : Nat) (bytes : List Nat) : List Nat :=
  data.take pos ++ bytes ++ data.drop (pos + bytes.length)

/-- `PacketWriter::write_bytes_raw` (reader.rs:362). -/
def PacketWriter.writeBytesRaw (w : PacketWriter) (bytes : List Nat) : PacketWriter :=
  ⟨cursorWrite w.data w.pos bytes, w.pos + bytes.length, w.messageStarts⟩

/-- `PacketWriter::write_u8` (reader.rs:318); `% 256` reflects the u8 type. -/
def PacketWriter.writeU8 (w : PacketWriter) (v : Nat) : PacketWriter :=
  w.writeBytesRaw [v % 256]

/-- `PacketWriter::write_u16` (reader.rs:324): little-endian bytes; `u16le`
already reduces the value mod 2^16 the way the u16 type does. -/
def PacketWriter.writeU16 (w : PacketWriter) (v : Nat) : PacketWriter :=
  w.writeBytesRaw (u16le v)

/-- `PacketWriter::write_i32` (reader.rs:352): four little-endian bytes. -/
def PacketWriter.writeI32 (w : PacketWriter) (v : Int) : PacketWriter :=
  w.writeBytesRaw (i32leBytes v)

/-- `PacketWriter::start_message` (reader.rs:399): remember the cursor
position, write a placeholder `0xFFFF` length, then the tag byte. -/
def PacketWriter.startMessage (w : PacketWriter) (tag : Nat) : PacketWriter :=
  (PacketWriter.writeU16 ⟨w.data, w.pos, w.pos :: w.messageStarts⟩ 0xFFFF).writeU8 tag

/-- `PacketWriter::end_message` (reader.rs:407): pop the innermost start,
compute `data_len = end_pos - start - 3`, patch it (as a u16) over the
placeholder, and restore the cursor.  An unbalanced call unwraps `None` in
the source (a panic); balanced usage, the only kind exercised here, never
reaches that case, which is modelled as a no-op. -/
def PacketWriter.endMessage (w : PacketWriter) : PacketWriter :=
  match w.messageStarts with
  | [] => w
  | start :: rest =>
    let dataLen := w.pos - start - 3
    ⟨cursorWrite w.data start (u16le dataLen), w.pos, rest⟩

/-- `PacketWriter::finish` (reader.rs:418): the bytes written (the source
additionally asserts that no message is left open). -/
def PacketWriter.finish (w : PacketWriter) : List Nat := w.data

/-- Writing one framed message: `start_message tag`, raw payload bytes,
`end_message`. -/
def writeMessage (w : PacketWriter) (tag : Nat) (payload : List Nat) : PacketWriter :=
  ((w.startMessage tag).writeBytesRaw payload).endMessage

/-- Writing a sequence of `(tag, payload)` messages into one buffer. -/
def writeMessages (ps : List (Nat × List Nat)) : PacketWriter :=
  ps.foldl (fun w p => writeMessage w p.1 p.2) PacketWriter.new

/-- The bytes one framed message occupies in the buffer: u16 LE length,
tag byte, payload. -/
def encOne (p : Nat × List Nat) : List Nat := u16le p.2.length ++ [p.1 % 256] ++ p.2

/-- Repeatedly reading messages from a buffer until it is exhausted (the
`read_all` pattern of reader.rs:53 applied to `read_message`).  The fuel
argument only bounds the recursion; `readMessages` supplies the buffer
length, which always suffices because each message consumes at least three
bytes. -/
def readMessagesGo : Nat → List Nat → Except ReadErr (List (Nat × List Nat))
  | _, [] => .ok []
  | 0, _ :: _ => .error .unexpectedEof
  | fuel + 1, b :: rest =>
    match readMessage (b :: rest) with
    | .error e => .error e
    | .ok ((tag, data), rest2) =>
      match readMessagesGo fuel rest2 with
      | .error e => .error e
      | .ok tail => .ok ((tag, data) :: tail)

/-- Read messages until no data is left. -/
def readMessages (bs : List Nat) : Except ReadErr (List (Nat × List Nat)) :=
  readMessagesGo bs.length bs

/-- `JoinGamePacket::serialize` (packets.rs:392): the game id as an i32
followed by the `maps_owned` byte. -/
def joinGamePacketBytes (gameId : GameId) (mapsOwned : Nat) : List Nat :=
  ((PacketWriter.new.writeI32 gameId.id).writeU8 mapsOwned).finish

/-- `HazelPacket` (hazel.rs:7): the six transport frame classes. -/
inductive HazelPacket where
  | unreliable (data : List Nat)
  | reliable (ackId : Nat) (data : List Nat)
  | disconnect
  | hello (ackId : Nat) (data : List Nat)
  | acknowledge (ackId : Nat)
  | keepAlive (ackId : Nat)
  deriving DecidableEq, Repr

/-- `HazelPacket::deserialize` (hazel.rs:72): a u8 discriminator, then for
the reliable-class frames a big-endian u16 ack id; `Unreliable`, `Reliable`
and `Hello` take all remaining bytes as payload.  An unknown discriminator
hits `panic!("Unknown packet type")`. -/
def HazelPacket.deserialize (bs : List Nat) : ReadResult HazelPacket :=
  match readU8 bs with
  | .error e => .error e
  | .ok (t, bs) =>
    if t = 0 then .ok (.unreliable bs, [])
    else if t = 1 then
      match readU16be bs with
      | .error e => .error e
      | .ok (a, bs) => .ok (.reliable a bs, [])
    else if t = 8 then
      match readU16be bs with
      | .error e => .error e
      | .ok (a, bs) => .ok (.hello a bs, [])
    else if t = 9 then .ok (.disconnect, bs)
    else if t = 10 then
      match readU16be bs with
      | .error e => .error e
      | .ok (a, bs) => .ok (.acknowledge a, bs)
    else if t = 12 then
      match readU16be bs with
      | .error e => .error e
      | .ok (a, bs) => .ok (.keepAlive a, bs)
    else .error .panicked

/-- Is `b` a UTF-8 continuation byte (`0x80..=0xBF`)? -/
def utf8Cont (b : Nat) : Bool := 128 ≤ b && b ≤ 191

/-- UTF-8 validity of a byte sequence, as checked by Rust's
`String::from_utf8`: ASCII, the 2/3/4-byte sequence ranges, no overlong
forms, no surrogates, nothing above U+10FFFF. -/
def isValidUtf8 : List Nat → Bool
  | [] => true
  | b :: rest =>
    if b ≤ 0x7F then isValidUtf8 rest
    else if 0xC2 ≤ b && b ≤ 0xDF then
      match rest with
      | b1 :: rest2 => utf8Cont b1 && isValidUtf8 rest2
      | [] => false
    else if b = 0xE0 then
      match rest with
      | b1 :: b2 :: rest2 => (0xA0 ≤ b1 && b1 ≤ 0xBF) && utf8Cont b2 && isValidUtf8 rest2
      | _ => false
    else if (0xE1 ≤ b && b ≤ 0xEC) || b = 0xEE || b = 0xEF then
      match rest with
      | b1 :: b2 :: rest2 => utf8Cont b1 && utf8Cont b2 && isValidUtf8 rest2
      | _ => false
    else if b = 0xED then
      match rest with
      | b1 :: b2 :: rest2 => (0x80 ≤ b1 && b1 ≤ 0x9F) && utf8Cont b2 && isValidUtf8 rest2
      | _ => false
    else if b = 0xF0 then
      match rest with
      | b1 :: b2 :: b3 :: rest2 =>
        (0x90 ≤ b1 && b1 ≤ 0xBF) && utf8Cont b2 && utf8Cont b3 && isValidUtf8 rest2
      | _ => false
    else if 0xF1 ≤ b && b ≤ 0xF3 then
      match rest with
      | b1 :: b2 :: b3 :: rest2 =>
        utf8Cont b1 && utf8Cont b2 && utf8Cont b3 && isValidUtf8 rest2
      | _ => false
    else if b = 0xF4 then
      match rest with
      | b1 :: b2 :: b3 :: rest2 =>
        (0x80 ≤ b1 && b1 ≤ 0x8F) && utf8Cont b2 && utf8Cont b3 && isValidUtf8 rest2
      | _ => false
    else false

/-- `PacketReader::read_bytes_raw` (reader.rs:32): `read_exact` into a
buffer of the requested size, `UnexpectedEof` when short. -/
def readBytesRaw (count : Nat) (bs : List Nat) : ReadResult (List Nat) :=
  if count ≤ bs.length then .ok (bs.take count, bs.drop count) else .error .unexpectedEof

/-- `PacketReader::read_string` (reader.rs:162): a varint length, that many
raw bytes, then `String::from_utf8`, whose failure is mapped to
`InvalidData`.  The string value is kept as its UTF-8 byte sequence. -/
def readString (bs : List Nat) : ReadResult (List Nat) :=
  match readU32Encoded bs with
  | .error e => .error e
  | .ok (length, bs) =>
    match readBytesRaw length bs with
    | .error e => .error e
    | .ok (data, bs) =>
      if isValidUtf8 data then .ok (data, bs) else .error .invalidData

/-- `DisconnectReason` (packets.rs:460). -/
inductive DisconnectReason where
  | exitGame
  | gameFull
  | gameStarted
  | gameNotFound
  | incorrectVersion
  | banned
  | kicked
  | custom (message : List Nat)
  | destroy
  | error
  | incorrectGame
  | serverRequest
  | serverFull
  | intentionalLeaving
  | focusLostBackground
  | focusLost
  | newConnection
  deriving DecidableEq, Repr

/-- `DisconnectReason::from_value_and_reader` (packets.rs:481): match on the
already-read i32 reason code; code 8 additionally reads a UTF-8 message;
every code outside the listed set hits `unreachable!()`. -/
def DisconnectReason.fromValueAndReader (value : Int) (bs : List Nat) :
    ReadResult DisconnectReason :=
  if value = 0 then .ok (.exitGame, bs)
  else if value = 1 then .ok (.gameFull, bs)
  else if value = 2 then .ok (.gameStarted, bs)
  else if value = 3 then .ok (.gameNotFound, bs)
  else if value = 5 then .ok (.incorrectVersion, bs)
  else if value = 6 then .ok (.banned, bs)
  else if value = 7 then .ok (.kicked, bs)
  else if value = 8 then
    match readString bs with
    | .error e => .error e
    | .ok (m, rest) => .ok (.custom m, rest)
  else if value = 16 then .ok (.destroy, bs)
  else if value = 17 then .ok (.error, bs)
  else if value = 18 then .ok (.incorrectGame, bs)
  else if value = 19 then .ok (.serverRequest, bs)
  else if value = 20 then .ok (.serverFull, bs)
  else if value = 207 then .ok (.focusLostBackground, bs)
  else if value = 208 then .ok (.intentionalLeaving, bs)
  else if value = 209 then .ok (.focusLost, bs)
  else if value = 210 then .ok (.newConnection, bs)
  else .error .panicked

/-- The set of reason codes `DisconnectReason::from_value_and_reader`
accepts without reaching `unreachable!()`. -/
def definedReasonCodes : List Int :=
  [0, 1, 2, 3, 5, 6, 7, 8, 16, 17, 18, 19, 20, 207, 208, 209, 210]

/-- Rust `as u16` applied to a non-negative rational standing in for an f32:
truncate toward zero and saturate at the type bounds (a negative value casts
to 0). -/
def ratToU16 (r : ℚ) : Nat := if r < 0 then 0 else min (Int.toNat ⌊r⌋) 65535

/-- One coordinate of `Vector2::serialize` (objects.rs:325):
`((x / 80.) + 40.).max(0.).min(1.)` scaled by `65555.` and cast to u16.
The f32 arithmetic is modelled exactly over ℚ; at the inputs this
development evaluates (small integers) every intermediate f32 value is
exactly representable, so the model agrees with the source bit-for-bit. -/
def vec2WriteCoord (x : ℚ) : Nat := ratToU16 (min (max (x / 80 + 40) 0) 1 * 65555)

/-- `Vector2::serialize` (objects.rs:324): both coordinates as u16 LE. -/
def vector2SerializeBytes (x y : ℚ) : List Nat :=
  ((PacketWriter.new.writeU16 (vec2WriteCoord x)).writeU16 (vec2WriteCoord y)).finish

/-- One coordinate of `Vector2::deserialize` (objects.rs:315):
`(v.max(0.).min(1.) * 80.) - 40.` for `v = u16 / 65535.`. -/
def vec2ReadCoord (n : Nat) : ℚ := min (max ((n : ℚ) / 65535) 0) 1 * 80 - 40

/-- `Vector2::deserialize` (objects.rs:314): two u16 reads, then the inverse
map on each coordinate. -/
def vector2Deserialize (bs : List Nat) : ReadResult (ℚ × ℚ) :=
  match readU16 bs with
  | .error e => .error e
  | .ok (v, bs) =>
    match readU16 bs with
    | .error e => .error e
    | .ok (v2, bs) => .ok ((vec2ReadCoord v, vec2ReadCoord v2), bs)

/-- One entry of the transport's unconfirmed map (networking.rs:264): the
`Instant` the copy was (re)recorded, in milliseconds, and the serialized
frame bytes. -/
structure AckEntry where
  sentAt : Nat
  bytes : List Nat
  deriving DecidableEq, Repr

/-- The unconfirmed map, `HashMap<u16, (Instant, Vec<u8>)>`, as an
association list with unique keys. -/
abbrev Unconfirmed := List (Nat × AckEntry)

/-- Key lookup in the unconfirmed map: the first entry with the key (the
map invariantly has unique keys, as a `HashMap` does). -/
def lookupAck : Unconfirmed → Nat → Option AckEntry
  | [], _ => none
  | (k, e) :: rest, j => if k = j then some e else lookupAck rest j

/-- `HashMap::insert`: replace any entry with the same key (the send thread
additionally asserts that none exists, networking.rs:92). -/
def Unconfirmed.insertEntry (m : Unconfirmed) (k : Nat) (e : AckEntry) : Unconfirmed :=
  (k, e) :: m.filter fun p => p.1 != k

/-- `HashMap::remove`: drop the entry with the key if present, otherwise a
no-op (networking.rs:190). -/
def Unconfirmed.removeKey (m : Unconfirmed) (k : Nat) : Unconfirmed :=
  m.filter fun p => p.1 != k

/-- The transport events that touch the unconfirmed map: the send thread
storing a fresh copy of a reliable-class frame (networking.rs:90-112), the
receive thread processing an `Acknowledge` (networking.rs:189-191), and one
pass of the send thread's retransmission scan (networking.rs:120-144). -/
inductive TransportEvent where
  | sendReliable (ackId : Nat) (time : Nat) (bytes : List Nat)
  | recvAck (ackId : Nat)
  | scan (now : Nat)
  deriving DecidableEq, Repr

/-- One step of the unconfirmed map, returning the new map and the list of
frame byte strings retransmitted by the step.  The scan partitions the map
by `instant.elapsed() >= 1000ms`, keeps only the fresh entries as the new
map, and sends the stale entries' bytes (networking.rs:126-143): stale
entries are dropped from the map, not re-timestamped. -/
def stepUnconfirmed (m : Unconfirmed) : TransportEvent → Unconfirmed × List (List Nat)
  | .sendReliable k t bytes => (m.insertEntry k ⟨t, bytes⟩, [])
  | .recvAck k => (m.removeKey k, [])
  | .scan now =>
    let stale := m.filter fun p => 1000 ≤ now - p.2.sentAt
    let keep := m.filter fun p => ¬ (1000 ≤ now - p.2.sentAt)
    (keep, stale.map fun p => p.2.bytes)

/-- Running a sequence of transport events from a map state. -/
def runUnconfirmed (m : Unconfirmed) (evs : List TransportEvent) : Unconfirmed :=
  evs.foldl (fun m ev => (stepUnconfirmed m ev).1) m

/-- One cycle of the matchmaker scan loop's request pacing
(lib.rs:227-242), returning `(new reqs_sent, requests issued)`.  Mirrors the
source: the whole block is guarded by `reqs_sent < max_requests`;
`num_to_req` is computed in i32 arithmetic from u32 inputs; the request
count is `(num_to_req + 9) as u32 / 10` — the i32-to-u32 cast wraps negative
values; `reqs_sent` then grows by the count issued (u32 arithmetic). -/
def scanCycle (maxRequests cacheSize reqsSent numCache : Nat) : Nat × Nat :=
  if reqsSent < maxRequests then
    let numRequested := reqsSent * 10 % 4294967296
    let numToReq : Int :=
      i32ofBits (cacheSize % 4294967296) - i32ofBits ((numRequested + numCache) % 4294967296)
    let reqsToMake := u32ofInt (numToReq + 9) / 10
    ((reqsSent + reqsToMake) % 4294967296, reqsToMake)
  else (reqsSent, 0)

/-- A `GameList` reply decrements `reqs_sent` through `checked_sub(1)`,
leaving 0 unchanged (lib.rs:266-268) — exactly `Nat` subtraction. -/
def onGameListReply (reqsSent : Nat) : Nat := reqsSent - 1

/-- The session-loop client state touched by packet dispatch (lib.rs:157):
ids are `i32`s, the player set is a `HashSet<i32>` (modelled as a duplicate-
free list), and `is_public` a flag.  The net-object registry is only ever
reached through `handle_game_info`, which the dispatch model takes as a
parameter. -/
structure ClientState where
  gameId : Option Int
  clientId : Option Int
  hostId : Option Int
  playerIds : List Int
  isPublic : Bool
  deriving DecidableEq, Repr

/-- `HashSet::insert`. -/
def hashSetInsert (s : List Int) (x : Int) : List Int :=
  if x ∈ s then s else x :: s

/-- `HashSet::remove`. -/
def hashSetRemove (s : List Int) (x : Int) : List Int :=
  s.filter fun y => y != x

/-- The session packets whose dispatch C8/C10 quantify over
(lib.rs:364-457), with game ids as raw i32 values and the `GameInfo`
sub-infos as an abstract type `I`. -/
inductive SessionPacket (I : Type) where
  | playerJoined (gameId playerId hostId : Int)
  | playerLeft (gameId playerId hostId : Int) (reason : Option Nat)
  | gameStarted
  | gameInfo (gameId : Int) (data : List I)
  | gameInfoTo (gameId : Int) (clientId : Int) (data : List I)
  | gameAltered (gameId : Int) (isPublic : Bool)

/-- The packet dispatch of `Client::run_game_inner` (lib.rs:364-457).
`hgi` stands for `Client::handle_game_info`; the second component of the
result is the list of sub-infos dispatched to it (`[]` when the packet is
dropped).  `none` models a panic (a `.unwrap()` of an unset `game_id`).
Mirrored source details: `PlayerJoined`/`PlayerLeft` unwrap `game_id` and
drop on mismatch; `GameInfo` checks `is_none` before unwrapping;
`GameInfoTo` checks the client id only when the client id is set (`if let`),
then the game id; `GameAltered` unwraps `game_id` and logs on mismatch but
performs the `is_public` assignment unconditionally. -/
def handlePacket {I : Type} (hgi : ClientState → List I → ClientState)
    (st : ClientState) : SessionPacket I → Option (ClientState × List I)
  | .playerJoined g pid hid =>
    match st.gameId with
    | none => none
    | some g0 =>
      if g ≠ g0 then some (st, [])
      else some ({ st with playerIds := hashSetInsert st.playerIds pid,
                           hostId := some hid }, [])
  | .playerLeft g pid hid _ =>
    match st.gameId with
    | none => none
    | some g0 =>
      if g ≠ g0 then some (st, [])
      else some ({ st with playerIds := hashSetRemove st.playerIds pid,
                           hostId := some hid }, [])
  | .gameStarted => some (st, [])
  | .gameInfo g data =>
    match st.gameId with
    | none => some (st, [])
    | some g0 => if g ≠ g0 then some (st, []) else some (hgi st data, data)
  | .gameInfoTo g cid data =>
    match st.clientId with
    | some myId =>
      if myId ≠ cid then some (st, [])
      else
        match st.gameId with
        | none => some (st, [])
        | some g0 => if g ≠ g0 then some (st, []) else some (hgi st data, data)
    | none =>
      match st.gameId with
      | none => some (st, [])
      | some g0 => if g ≠ g0 then some (st, []) else some (hgi st data, data)
  | .gameAltered _ pub =>
    match st.gameId with
    | none => none
    | some _ => some ({ st with isPublic := pub }, [])

/-- Or-ing disjoint bit ranges is addition: below 2^k the low part is
untouched by a multiple of 2^k. -/
theorem lor_two_pow_mul_add {a b k : Nat} (h : a < 2 ^ k) :
    a ||| 2 ^ k * b = 2 ^ k * b + a := by
  apply Nat.eq_of_testBit_eq
  intro j
  rw [Nat.testBit_lor, Nat.testBit_mul_pow_two_add _ h]
  rcases lt_or_ge j k with hj | hj
  · have hhi : (2 ^ k * b).testBit j = false := by
      have := Nat.testBit_mul_pow_two_add (a := b) (b := 0) (i := k)
        (Nat.pos_pow_of_pos k (by norm_num)) j
      simpa [hj, Nat.zero_testBit] using this
    simp [hhi, hj]
  · have ha : a.testBit j = false :=
      Nat.testBit_lt_two_pow (lt_of_lt_of_le h (Nat.pow_le_pow_right (by norm_num) hj))
    have hhi : (2 ^ k * b).testBit j = b.testBit (j - k) := by
      have := Nat.testBit_mul_pow_two_add (a := b) (b := 0) (i := k)
        (Nat.pos_pow_of_pos k (by norm_num)) j
      simpa [Nat.not_lt.mpr hj, Nat.zero_testBit] using this
    simp [hhi, ha, Nat.not_lt.mpr hj]

/-- The bit pattern of a small non-negative `i32` value is itself. -/
theorem u32ofInt_natCast (n : Nat) (h : n < 4294967296) : u32ofInt (n : Int) = n := by
  unfold u32ofInt; omega

/-- A pattern below 2^31 reads back as a non-negative value. -/
theorem i32ofBits_of_lt {n : Nat} (h : n < 2147483648) : i32ofBits n = (n : Int) := by
  unfold i32ofBits; rw [if_pos h]

/-- A pattern with the sign bit set reads back shifted down by 2^32. -/
theorem i32ofBits_of_ge {n : Nat} (h : 2147483648 ≤ n) :
    i32ofBits n = (n : Int) - 4294967296 := by
  unfold i32ofBits; rw [if_neg (by omega)]

/-- Masking an `i32` with `0x3ff` keeps the low 10 bits of its pattern. -/
theorem i32and_1023 (v : Int) : i32and v 1023 = ((u32ofInt v % 1024 : Nat) : Int) := by
  unfold i32and
  rw [show u32ofInt 1023 = 1023 from by decide,
    show (1023 : Nat) = 2 ^ 10 - 1 from by norm_num,
    Nat.and_pow_two_sub_one_eq_mod, i32ofBits_of_lt (by omega)]

/-- Masking an `i32` with `0xfffff` keeps the low 20 bits of its pattern. -/
theorem i32and_1048575 (v : Int) :
    i32and v 1048575 = ((u32ofInt v % 1048576 : Nat) : Int) := by
  unfold i32and
  rw [show u32ofInt 1048575 = 1048575 from by decide,
    show (1048575 : Nat) = 2 ^ 20 - 1 from by norm_num,
    Nat.and_pow_two_sub_one_eq_mod, i32ofBits_of_lt (by omega)]

set_option maxHeartbeats 1600000 in
set_option maxRecDepth 4000 in
/-- C6: for every 6-character string drawn from the 26-letter game-code
alphabet (all 26^6 inputs), encoding with `GameId::from_chars` and decoding
the resulting i32 back through the `Display` rendering yields the original
6-character string. -/
theorem c6_gameId_roundtrip (cs : List Char) (hlen : cs.length = 6)
    (halpha : ∀ c ∈ cs, c ∈ CHAR_LOOKUP) :
    (GameId.fromChars cs).displayChars = cs := by
  obtain ⟨c0, c1, c2, c3, c4, c5, rfl⟩ :
      ∃ c0 c1 c2 c3 c4 c5, cs = [c0, c1, c2, c3, c4, c5] := by
    rcases cs with _ | ⟨c0, _ | ⟨c1, _ | ⟨c2, _ | ⟨c3, _ | ⟨c4, _ | ⟨c5, _ | ⟨c6, t⟩⟩⟩⟩⟩⟩⟩ <;>
      first
        | (exact ⟨c0, c1, c2, c3, c4, c5, rfl⟩)
        | (exfalso; simp at hlen)
  have hm0 : c0 ∈ CHAR_LOOKUP := halpha c0 (by simp)
  have hm1 : c1 ∈ CHAR_LOOKUP := halpha c1 (by simp)
  have hm2 : c2 ∈ CHAR_LOOKUP := halpha c2 (by simp)
  have hm3 : c3 ∈ CHAR_LOOKUP := halpha c3 (by simp)
  have hm4 : c4 ∈ CHAR_LOOKUP := halpha c4 (by simp)
  have hm5 : c5 ∈ CHAR_LOOKUP := halpha c5 (by simp)
  have hb0 : CHAR_LOOKUP.indexOf c0 < 26 := by
    simpa [CHAR_LOOKUP] using List.indexOf_lt_length.2 hm0
  have hb1 : CHAR_LOOKUP.indexOf c1 < 26 := by
    simpa [CHAR_LOOKUP] using List.indexOf_lt_length.2 hm1
  have hb2 : CHAR_LOOKUP.indexOf c2 < 26 := by
    simpa [CHAR_LOOKUP] using List.indexOf_lt_length.2 hm2
  have hb3 : CHAR_LOOKUP.indexOf c3 < 26 := by
    simpa [CHAR_LOOKUP] using List.indexOf_lt_length.2 hm3
  have hb4 : CHAR_LOOKUP.indexOf c4 < 26 := by
    simpa [CHAR_LOOKUP] using List.indexOf_lt_length.2 hm4
  have hb5 : CHAR_LOOKUP.indexOf c5 < 26 := by
    simpa [CHAR_LOOKUP] using List.indexOf_lt_length.2 hm5
  set n0 := CHAR_LOOKUP.indexOf c0 with hn0
  set n1 := CHAR_LOOKUP.indexOf c1 with hn1
  set n2 := CHAR_LOOKUP.indexOf c2 with hn2
  set n3 := CHAR_LOOKUP.indexOf c3 with hn3
  set n4 := CHAR_LOOKUP.indexOf c4 with hn4
  set n5 := CHAR_LOOKUP.indexOf c5 with hn5
  set L := n1 * 26 + n0 with hLdef
  set U := ((n5 * 26 + n4) * 26 + n3) * 26 + n2 with hUdef
  set P := 2147483648 + 1024 * U + L with hPdef
  have hLlt : L < 1024 := by omega
  have hUlt : U < 1048576 := by omega
  have hshl : i32shl (U : Int) 10 = ((2 ^ 10 * U : Nat) : Int) := by
    unfold i32shl
    rw [u32ofInt_natCast U (by omega), Nat.shiftLeft_eq,
      Nat.mod_eq_of_lt (by omega), i32ofBits_of_lt (by omega), Nat.mul_comm]
  have hor1 : i32or (L : Int) ((2 ^ 10 * U : Nat) : Int) = ((2 ^ 10 * U + L : Nat) : Int) := by
    unfold i32or
    rw [u32ofInt_natCast L (by omega), u32ofInt_natCast _ (by omega),
      lor_two_pow_mul_add hLlt, i32ofBits_of_lt (by omega)]
  have hor2 : i32or ((2 ^ 10 * U + L : Nat) : Int) (-2147483648) = ((P : Nat) : Int) - 4294967296 := by
    unfold i32or
    rw [u32ofInt_natCast _ (by omega),
      show u32ofInt (-2147483648) = 2147483648 from by decide]
    rw [show (2147483648 : Nat) = 2 ^ 31 * 1 from by norm_num,
      lor_two_pow_mul_add (show 2 ^ 10 * U + L < 2 ^ 31 by omega),
      i32ofBits_of_ge (by omega)]
    omega
  have hfc : GameId.fromChars [c0, c1, c2, c3, c4, c5] = ⟨((P : Nat) : Int) - 4294967296⟩ := by
    simp only [GameId.fromChars, List.length_cons, List.length_nil, if_pos,
      List.map_cons, List.map_nil, List.getD_cons_zero, List.getD_cons_succ]
    rw [show ((n1 : Int) * 26 + n0) = ((L : Nat) : Int) from by omega,
      show ((((n5 : Int) * 26 + n4) * 26 + n3) * 26 + n2) = ((U : Nat) : Int) from by omega]
    rw [hshl, hor1, hor2]
  have hu32 : u32ofInt (((P : Nat) : Int) - 4294967296) = P := by
    unfold u32ofInt; omega
  have hand1 : i32and (((P : Nat) : Int) - 4294967296) 1023 = ((L : Nat) : Int) := by
    rw [i32and_1023, hu32]
    omega
  have hasr : i32asr (((P : Nat) : Int) - 4294967296) 10 = (U : Int) - 2097152 := by
    unfold i32asr
    rw [show (((2 ^ 10 : Nat) : Int)) = 1024 from by norm_num]
    omega
  have hand2 : i32and ((U : Int) - 2097152) 1048575 = (U : Int) := by
    rw [i32and_1048575, show u32ofInt ((U : Int) - 2097152) = U + 4292870144 from by
      unfold u32ofInt; omega]
    omega
  have hget0 : CHAR_LOOKUP.getD n0 ' ' = c0 := by
    rw [hn0, List.getD_eq_getElem _ _ (List.indexOf_lt_length.2 hm0)]
    exact List.getElem_indexOf _
  have hget1 : CHAR_LOOKUP.getD n1 ' ' = c1 := by
    rw [hn1, List.getD_eq_getElem _ _ (List.indexOf_lt_length.2 hm1)]
    exact List.getElem_indexOf _
  have hget2 : CHAR_LOOKUP.getD n2 ' ' = c2 := by
    rw [hn2, List.getD_eq_getElem _ _ (List.indexOf_lt_length.2 hm2)]
    exact List.getElem_indexOf _
  have hget3 : CHAR_LOOKUP.getD n3 ' ' = c3 := by
    rw [hn3, List.getD_eq_getElem _ _ (List.indexOf_lt_length.2 hm3)]
    exact List.getElem_indexOf _
  have hget4 : CHAR_LOOKUP.getD n4 ' ' = c4 := by
    rw [hn4, List.getD_eq_getElem _ _ (List.indexOf_lt_length.2 hm4)]
    exact List.getElem_indexOf _
  have hget5 : CHAR_LOOKUP.getD n5 ' ' = c5 := by
    rw [hn5, List.getD_eq_getElem _ _ (List.indexOf_lt_length.2 hm5)]
    exact List.getElem_indexOf _
  rw [hfc]
  unfold GameId.displayChars
  rw [if_pos (show (((P : Nat) : Int) - 4294967296) < -1 by omega)]
  simp only [hand1, hasr, hand2, List.map_cons, List.map_nil]
  rw [show (((L : Nat) : Int) % 26).toNat = n0 from by omega,
    show (((L : Nat) : Int) / 26 % 26).toNat = n1 from by omega,
    show (((U : Nat) : Int) % 26).toNat = n2 from by omega,
    show (((U : Nat) : Int) / 26 % 26).toNat = n3 from by omega,
    show (((U : Nat) : Int) / 676 % 26).toNat = n4 from by omega,
    show (((U : Nat) : Int) / 17576 % 26).toNat = n5 from by omega,
    hget0, hget1, hget2, hget3, hget4, hget5]

/-- C7: `GameId::from_chars("AQNKQQ")` produces an i32 whose little-endian
bytes are `[0x19, 0xdc, 0x06, 0x80]`, and serializing a `JoinGame` packet for
that id with `maps_owned` bitset 7 yields exactly
`0x19 0xdc 0x06 0x80 0x07`. -/
theorem c7_joinGame_bytes :
    i32leBytes (GameId.fromChars ['A', 'Q', 'N', 'K', 'Q', 'Q']).id
        = [0x19, 0xdc, 0x06, 0x80] ∧
    joinGamePacketBytes (GameId.fromChars ['A', 'Q', 'N', 'K', 'Q', 'Q']) 7
        = [0x19, 0xdc, 0x06, 0x80, 0x07] := by
  constructor <;> decide

/-- C3 (failing evaluation): serializing `Vector2 { x: 0.0, y: 0.0 }` and
deserializing the produced bytes yields `(40, 40)`, not a vector within the
quantization tolerance `80/65535` of the input: the serializer's
`(x / 80.) + 40.` (instead of the inverse map `(x + 40.) / 80.`) clamps to
1.0 for every in-range coordinate, so the written u16 is always 65535.  At
this input every f32 operation of the source is exact, so the rational model
evaluates to the same bytes and values as the code. -/
theorem c3_vector2_roundtrip_failure :
    vector2Deserialize (vector2SerializeBytes 0 0) = .ok ((40, 40), []) ∧
    ¬ (|(40 : ℚ) - 0| ≤ 80 / 65535) := by
  have hw : vec2WriteCoord 0 = 65535 := by
    unfold vec2WriteCoord ratToU16
    rw [show ((0 : ℚ) / 80 + 40) = 40 from by norm_num,
      max_eq_left (by norm_num : (0 : ℚ) ≤ 40),
      min_eq_right (by norm_num : (1 : ℚ) ≤ 40), one_mul,
      if_neg (by norm_num),
      show ((65555 : ℚ) : ℚ) = ((65555 : ℤ) : ℚ) from by norm_num,
      Int.floor_intCast]
    decide
  have hr : vec2ReadCoord 65535 = 40 := by
    unfold vec2ReadCoord
    rw [show ((65535 : ℕ) : ℚ) / 65535 = 1 from by norm_num,
      max_eq_left (by norm_num : (0 : ℚ) ≤ 1), min_self]
    norm_num
  constructor
  · have hbytes : vector2SerializeBytes 0 0 = [255, 255, 255, 255] := by
      simp [vector2SerializeBytes, PacketWriter.writeU16, PacketWriter.writeBytesRaw,
        PacketWriter.new, PacketWriter.finish, cursorWrite, u16le, hw]
    rw [hbytes]
    simp [vector2Deserialize, readU16, hr]
  · rw [abs_of_nonneg (by norm_num)]
    norm_num

/-- C4 (failing evaluation): on five continuation bytes
`[0xFF, 0xFF, 0xFF, 0xFF, 0xFF]` the varint reader does not return
`InvalidData` after five bytes — its stop condition `offset > 28` first
holds at offset 35, so it attempts a sixth read: with exactly five bytes it
fails with `UnexpectedEof`, and with a sixth byte available it consumes it
and returns `Ok`. -/
theorem c4_varint_reads_sixth_byte :
    readU32Encoded [255, 255, 255, 255, 255] = .error .unexpectedEof ∧
    readU32Encoded [255, 255, 255, 255, 255, 128] = .ok (4294967295, []) := by
  constructor <;> decide

/-- C8 (failing evaluation): a `GameAltered` packet whose game id (2) differs
from the client's current game id (1) still flips `is_public`: the mismatch
arm only logs, it does not `continue`, so the assignment runs
unconditionally. -/
theorem c8_gameAltered_mismatch_mutates {I : Type}
    (hgi : ClientState → List I → ClientState) :
    handlePacket hgi ⟨some 1, some 7, some 2, [], false⟩
        (.gameAltered 2 true)
      = some (⟨some 1, some 7, some 2, [], true⟩, []) ∧
    (⟨some 1, some 7, some 2, [], true⟩ : ClientState)
      ≠ ⟨some 1, some 7, some 2, [], false⟩ := by
  exact ⟨rfl, by decide⟩

/-- C10: before `ClientJoinedGame` sets the client id, a `GameInfoTo` whose
game id matches the joined game is not dropped for client-id mismatch: the
`if let Some(my_id)` guard is skipped entirely, so its sub-infos are
dispatched whatever client id the packet carries. -/
theorem c10_gameInfoTo_unset_clientId {I : Type}
    (hgi : ClientState → List I → ClientState) (st : ClientState)
    (g cid : Int) (data : List I)
    (hcid : st.clientId = none) (hgid : st.gameId = some g) :
    handlePacket hgi st (.gameInfoTo g cid data) = some (hgi st data, data) := by
  simp [handlePacket, hcid, hgid]

/-- Witness for C10 at a concrete state and packet. -/
theorem c10_gameInfoTo_unset_clientId_witness :
    (⟨some 3, none, none, [], false⟩ : ClientState).clientId = none ∧
    handlePacket (fun st _ => st) ⟨some 3, none, none, [], false⟩
        (.gameInfoTo 3 9 [(4 : Nat)])
      = some (⟨some 3, none, none, [], false⟩, [4]) :=
  ⟨rfl, c10_gameInfoTo_unset_clientId (fun st _ => st) _ 3 9 [4] rfl rfl⟩

/-- C9 (counterexample to the request bound): with the default settings
(`max_requests = 10`, `cache_size = 200`) and no requests yet sent, the
first cycle issues 20 requests — more than
`max_requests - already_sent = 10`.  `max_requests` only gates whether the
block runs (`reqs_sent < max_requests`); it never caps the count issued. -/
theorem c9_counterexample :
    scanCycle 10 200 0 0 = (20, 20) ∧ ¬ ((scanCycle 10 200 0 0).2 ≤ 10 - 0) := by
  decide

/-- C9 as amended: per cycle, with `pending = reqs_sent` (which replies
decrement) and `buffered` cached listings, nothing is issued once
`pending ≥ max_requests`; otherwise, whenever
`pending*10 + buffered ≤ target + 9` (missing count at least -9), the cycle
issues `(target + 9 - (pending*10 + buffered)) / 10` requests — that is,
`⌈missing/10⌉` for non-negative missing and 0 for slightly negative missing
— with no upper bound tied to `max_requests`; and a `GameList` reply
decrements `reqs_sent` by one, saturating at zero. -/
theorem c9_amended (maxRequests cacheSize reqsSent numCache : Nat)
    (hcs : cacheSize < 2147483648) (hused : reqsSent * 10 + numCache < 2147483648) :
    (maxRequests ≤ reqsSent →
      scanCycle maxRequests cacheSize reqsSent numCache = (reqsSent, 0)) ∧
    (reqsSent < maxRequests → reqsSent * 10 + numCache ≤ cacheSize + 9 →
      (scanCycle maxRequests cacheSize reqsSent numCache).2
        = (cacheSize + 9 - (reqsSent * 10 + numCache)) / 10) ∧
    onGameListReply (reqsSent + 1) = reqsSent ∧
    onGameListReply 0 = 0 := by
  refine ⟨fun hge => ?_, fun hlt hm => ?_, rfl, rfl⟩
  · unfold scanCycle
    rw [if_neg (by omega)]
  · unfold scanCycle
    rw [if_pos hlt]
    simp only
    rw [Nat.mod_eq_of_lt (by omega), Nat.mod_eq_of_lt (by omega),
      Nat.mod_eq_of_lt (by omega), i32ofBits_of_lt (by omega),
      i32ofBits_of_lt (by omega)]
    unfold u32ofInt
    congr 1
    omega

/-- Witness for C9 at concrete settings: `pending = 3`, `buffered = 50`,
`target = 200` issue `(209 - 80) / 10 = 12` requests. -/
theorem c9_amended_witness :
    (200 : Nat) < 2147483648 ∧
    (scanCycle 10 200 3 50).2 = (200 + 9 - (3 * 10 + 50)) / 10 :=
  ⟨by decide, (c9_amended 10 200 3 50 (by decide) (by decide)).2.1 (by decide) (by decide)⟩

/-- Filtering out a different key leaves a lookup unchanged. -/
theorem lookupAck_filter_ne (m : Unconfirmed) {j k : Nat} (h : j ≠ k) :
    lookupAck (m.filter fun p => p.1 != j) k = lookupAck m k := by
  induction m with
  | nil => rfl
  | cons p rest ih =>
    obtain ⟨k', e'⟩ := p
    by_cases hk' : k' = j
    · subst hk'
      rw [List.filter_cons, if_neg (by simp)]
      rw [ih]
      simp only [lookupAck]
      rw [if_neg h]
    · rw [List.filter_cons, if_pos (by simpa using hk')]
      simp only [lookupAck]
      by_cases hkk : k' = k
      · rw [if_pos hkk, if_pos hkk]
      · rw [if_neg hkk, if_neg hkk, ih]

/-- Filtering out a key removes it from lookups. -/
theorem lookupAck_filter_self (m : Unconfirmed) (k : Nat) :
    lookupAck (m.filter fun p => p.1 != k) k = none := by
  induction m with
  | nil => rfl
  | cons p rest ih =>
    obtain ⟨k', e'⟩ := p
    by_cases h : k' = k
    · subst h
      simpa [List.filter_cons] using ih
    · rw [List.filter_cons, if_pos (by simpa using h)]
      simp only [lookupAck]
      rw [if_neg h, ih]

/-- Removing a key that is not present is a no-op. -/
theorem removeKey_of_lookupAck_none (m : Unconfirmed) (j : Nat)
    (h : lookupAck m j = none) : m.removeKey j = m := by
  induction m with
  | nil => rfl
  | cons p rest ih =>
    obtain ⟨k', e'⟩ := p
    unfold lookupAck at h
    by_cases hk : k' = j
    · simp [hk] at h
    · rw [if_neg hk] at h
      unfold Unconfirmed.removeKey at ih ⊢
      rw [List.filter_cons, if_pos (by simpa using hk), ih h]

/-- A successful lookup exhibits a member of the map. -/
theorem lookupAck_mem {m : Unconfirmed} {k : Nat} {e : AckEntry}
    (h : lookupAck m k = some e) : (k, e) ∈ m := by
  induction m with
  | nil => simp [lookupAck] at h
  | cons p rest ih =>
    obtain ⟨k', e'⟩ := p
    unfold lookupAck at h
    by_cases hk : k' = k
    · subst hk
      rw [if_pos rfl] at h
      obtain rfl : e' = e := by injection h
      exact List.mem_cons_self _ _
    · rw [if_neg hk] at h
      exact List.mem_cons_of_mem _ (ih h)

/-- A key outside the key list looks up to nothing. -/
theorem lookupAck_eq_none_of_not_mem {m : Unconfirmed} {k : Nat}
    (h : k ∉ m.map Prod.fst) : lookupAck m k = none := by
  induction m with
  | nil => rfl
  | cons p rest ih =>
    obtain ⟨k', e'⟩ := p
    rw [List.map_cons, List.mem_cons, not_or] at h
    rw [lookupAck, if_neg (fun hkk => h.1 (by simp [hkk]))]
    exact ih h.2

/-- Lookup through a filter, given unique keys: the entry survives exactly
when the predicate keeps it. -/
theorem lookupAck_filter_of_nodup {f : Nat × AckEntry → Bool} {m : Unconfirmed}
    {k : Nat} {e : AckEntry} (hnd : (m.map Prod.fst).Nodup)
    (hk : lookupAck m k = some e) :
    lookupAck (m.filter f) k = if f (k, e) then some e else none := by
  induction m with
  | nil => simp [lookupAck] at hk
  | cons p rest ih =>
    obtain ⟨k', e'⟩ := p
    rw [List.map_cons, List.nodup_cons] at hnd
    unfold lookupAck at hk
    by_cases hkk : k' = k
    · subst hkk
      rw [if_pos rfl] at hk
      obtain rfl : e' = e := by injection hk
      rw [List.filter_cons]
      by_cases hf : f (k', e') = true
      · rw [if_pos hf, if_pos hf]
        simp [lookupAck]
      · rw [if_neg hf, if_neg hf]
        refine lookupAck_eq_none_of_not_mem fun hmem => hnd.1 ?_
        simp only [List.mem_map] at hmem ⊢
        obtain ⟨q, hq, hq1⟩ := hmem
        exact ⟨q, List.mem_of_mem_filter hq, hq1⟩
    · rw [if_neg hkk] at hk
      rw [List.filter_cons]
      by_cases hf : f (k', e') = true
      · rw [if_pos hf]
        simp only [lookupAck]
        rw [if_neg hkk, ih hnd.2 hk]
      · rw [if_neg hf, ih hnd.2 hk]

/-- C1 (counterexample to "remains in the map with its timestamp reset"):
send a reliable frame with ack id 5 at t = 0 ms, then run one retransmission
scan at t = 1000 ms.  The scan does retransmit the frame's bytes, but the
new map is empty: the stale entry was dropped, not kept with a fresh
timestamp, so a subsequent loss of the retransmission can never be repaired
and a later ack for id 5 finds nothing to remove. -/
theorem c1_counterexample :
    stepUnconfirmed (stepUnconfirmed [] (.sendReliable 5 0 [1])).1 (.scan 1000)
        = ([], [[1]]) ∧
    lookupAck (stepUnconfirmed (stepUnconfirmed [] (.sendReliable 5 0 [1])).1
        (.scan 1000)).1 5 = none := by
  constructor <;> rfl

/-- C1 as amended: after a reliable-class send with ack id `K` the
unconfirmed map contains the entry, and it stays there under acks for other
ids (an ack whose id is absent from the map changes nothing at all) and
under scans that find it younger than 1000 ms; it leaves the map either when
an `Acknowledge` with id `K` arrives, or when a scan finds its age at least
1000 ms — in which case the entry's bytes are retransmitted and the entry is
removed (not re-timestamped). -/
theorem c1_amended (m : Unconfirmed) (k j now t : Nat) (e : AckEntry)
    (bytes : List Nat) (hnd : (m.map Prod.fst).Nodup)
    (hk : lookupAck m k = some e) :
    lookupAck ((stepUnconfirmed m (.sendReliable k t bytes)).1) k
        = some ⟨t, bytes⟩ ∧
    lookupAck ((stepUnconfirmed m (.recvAck k)).1) k = none ∧
    (j ≠ k → lookupAck ((stepUnconfirmed m (.recvAck j)).1) k = some e) ∧
    (lookupAck m j = none → stepUnconfirmed m (.recvAck j) = (m, [])) ∧
    (now - e.sentAt < 1000 →
      lookupAck ((stepUnconfirmed m (.scan now)).1) k = some e) ∧
    (1000 ≤ now - e.sentAt →
      lookupAck ((stepUnconfirmed m (.scan now)).1) k = none ∧
      e.bytes ∈ (stepUnconfirmed m (.scan now)).2) := by
  refine ⟨?_, ?_, fun hj => ?_, fun hnone => ?_, fun hfresh => ?_, fun hstale => ?_⟩
  · rw [stepUnconfirmed, Unconfirmed.insertEntry, lookupAck, if_pos rfl]
  · exact lookupAck_filter_self m k
  · exact lookupAck_filter_ne m hj ▸ hk
  · rw [stepUnconfirmed, removeKey_of_lookupAck_none m j hnone]
  · rw [stepUnconfirmed]
    simp only
    rw [lookupAck_filter_of_nodup hnd hk, if_pos (by simpa using Nat.not_le.2 hfresh)]
  · constructor
    · rw [stepUnconfirmed]
      simp only
      rw [lookupAck_filter_of_nodup hnd hk,
        if_neg (by simpa using Nat.not_lt.2 hstale)]
    · rw [stepUnconfirmed]
      simp only [List.mem_map]
      exact ⟨(k, e), List.mem_filter.2 ⟨lookupAck_mem hk, by simpa using hstale⟩, rfl⟩

/-- Witness for C1 (amended) at a concrete map and events. -/
theorem c1_amended_witness :
    (lookupAck [((5 : Nat), (⟨0, [1]⟩ : AckEntry))] 5 = some ⟨0, [1]⟩) ∧
    (lookupAck (stepUnconfirmed [((5 : Nat), (⟨0, [1]⟩ : AckEntry))] (.scan 1000)).1 5 = none ∧
      [1] ∈ (stepUnconfirmed [((5 : Nat), (⟨0, [1]⟩ : AckEntry))] (.scan 1000)).2) :=
  ⟨rfl, (c1_amended [(5, ⟨0, [1]⟩)] 5 9 1000 0 ⟨0, [1]⟩ [1] (by decide)
    rfl).2.2.2.2.2 (by decide)⟩

/-- `read_u16_be` fails only with `UnexpectedEof`. -/
theorem readU16be_error {bs : List Nat} {e : ReadErr}
    (h : readU16be bs = .error e) : e = .unexpectedEof := by
  rcases bs with _ | ⟨a, _ | ⟨c, t⟩⟩ <;> simp [readU16be] at h <;> exact h.symm

/-- The varint loop fails only with `UnexpectedEof`. -/
theorem readU32EncodedGo_error (bs : List Nat) :
    ∀ offset value e, readU32EncodedGo offset value bs = .error e →
      e = .unexpectedEof := by
  induction bs with
  | nil =>
    intro o v e h
    simp only [readU32EncodedGo] at h
    injection h with h
    exact h.symm
  | cons b rest ih =>
    intro o v e h
    simp only [readU32EncodedGo] at h
    split at h
    · simp at h
    · exact ih _ _ _ h

/-- `read_bytes_raw` fails only with `UnexpectedEof`. -/
theorem readBytesRaw_error {count : Nat} {bs : List Nat} {e : ReadErr}
    (h : readBytesRaw count bs = .error e) : e = .unexpectedEof := by
  unfold readBytesRaw at h
  split at h
  · simp at h
  · injection h with h
    exact h.symm

/-- `read_string` can fail (EOF, invalid UTF-8) but never panics. -/
theorem readString_ne_panicked (bs : List Nat) :
    readString bs ≠ .error .panicked := by
  intro hc
  unfold readString at hc
  split at hc
  · rename_i e heq
    injection hc with hc
    subst hc
    have := readU32EncodedGo_error bs 0 0 _ heq
    simp at this
  · rename_i p len rest2 heq
    split at hc
    · rename_i e2 heq2
      injection hc with hc
      subst hc
      have := readBytesRaw_error heq2
      simp at this
    · rename_i q data rest3 heq3
      split at hc <;> simp at hc

/-- C2 (counterexample to "no panics on malformed input"): three decoders the
claim names abort instead of returning an error: a bool byte of 2, an
unknown Hazel packet discriminator 7, and the undefined disconnect-reason
code 4 all reach a `panic!`/`unreachable!` in the source. -/
theorem c2_counterexample :
    readBool [2] = .error .panicked ∧
    HazelPacket.deserialize [7] = .error .panicked ∧
    DisconnectReason.fromValueAndReader 4 [] = .error .panicked := by
  refine ⟨rfl, rfl, by decide⟩

/-- C2 as amended: the cited decoders return an `io::Error` on unexpected
EOF (and, for custom disconnect reasons, on invalid UTF-8 — `read_string`
never panics), but they abort on an invalid discriminator: `read_bool` on a
byte other than 0/1, `HazelPacket::deserialize` on a packet-type byte
outside {0, 1, 8, 9, 10, 12}, and disconnect-reason decoding on a reason
code outside the defined set. -/
theorem c2_amended (bs rest : List Nat) (b : Nat) (v : Int) :
    readBool [] = .error .unexpectedEof ∧
    (readBool (b :: rest) = .error .panicked ↔ 2 ≤ b) ∧
    HazelPacket.deserialize [] = .error .unexpectedEof ∧
    (HazelPacket.deserialize (b :: rest) = .error .panicked
      ↔ b ∉ ([0, 1, 8, 9, 10, 12] : List Nat)) ∧
    (DisconnectReason.fromValueAndReader v bs = .error .panicked
      ↔ v ∉ definedReasonCodes) := by
  refine ⟨rfl, ?_, rfl, ?_, ?_⟩
  · match b with
    | 0 => simp [readBool, readU8]
    | 1 => simp [readBool, readU8]
    | n + 2 => simp [readBool, readU8]
  · by_cases h0 : b = 0
    · subst h0; simp [HazelPacket.deserialize, readU8]
    · by_cases h1 : b = 1
      · subst h1
        rcases rest with _ | ⟨a, _ | ⟨c, t⟩⟩ <;>
          simp [HazelPacket.deserialize, readU8, readU16be]
      · by_cases h8 : b = 8
        · subst h8
          rcases rest with _ | ⟨a, _ | ⟨c, t⟩⟩ <;>
            simp [HazelPacket.deserialize, readU8, readU16be]
        · by_cases h9 : b = 9
          · subst h9; simp [HazelPacket.deserialize, readU8]
          · by_cases h10 : b = 10
            · subst h10
              rcases rest with _ | ⟨a, _ | ⟨c, t⟩⟩ <;>
                simp [HazelPacket.deserialize, readU8, readU16be]
            · by_cases h12 : b = 12
              · subst h12
                rcases rest with _ | ⟨a, _ | ⟨c, t⟩⟩ <;>
                  simp [HazelPacket.deserialize, readU8, readU16be]
              · simp [HazelPacket.deserialize, readU8, h0, h1, h8, h9, h10, h12]
  · constructor
    · intro hp hmem
      simp only [definedReasonCodes, List.mem_cons, List.not_mem_nil, or_false] at hmem
      rcases hmem with rfl | rfl | rfl | rfl | rfl | rfl | rfl | hrest
      · simp [DisconnectReason.fromValueAndReader] at hp
      · simp [DisconnectReason.fromValueAndReader] at hp
      · simp [DisconnectReason.fromValueAndReader] at hp
      · simp [DisconnectReason.fromValueAndReader] at hp
      · simp [DisconnectReason.fromValueAndReader] at hp
      · simp [DisconnectReason.fromValueAndReader] at hp
      · simp [DisconnectReason.fromValueAndReader] at hp
      · rcases hrest with rfl | rfl | rfl | rfl | rfl | rfl | rfl | rfl | rfl | rfl
        · -- v = 8: the custom-reason branch defers to read_string
          simp only [DisconnectReason.fromValueAndReader] at hp
          norm_num at hp
          rcases hs : readString bs with e | q
          · rw [hs] at hp
            have hp2 : (Except.error e : ReadResult DisconnectReason)
                = .error .panicked := hp
            injection hp2 with hp3
            exact readString_ne_panicked bs (hp3 ▸ hs)
          · obtain ⟨m, r2⟩ := q
            rw [hs] at hp
            have hp2 : (Except.ok (DisconnectReason.custom m, r2) :
                ReadResult DisconnectReason) = .error .panicked := hp
            exact Except.noConfusion hp2
        · simp [DisconnectReason.fromValueAndReader] at hp
        · simp [DisconnectReason.fromValueAndReader] at hp
        · simp [DisconnectReason.fromValueAndReader] at hp
        · simp [DisconnectReason.fromValueAndReader] at hp
        · simp [DisconnectReason.fromValueAndReader] at hp
        · simp [DisconnectReason.fromValueAndReader] at hp
        · simp [DisconnectReason.fromValueAndReader] at hp
        · simp [DisconnectReason.fromValueAndReader] at hp
        · simp [DisconnectReason.fromValueAndReader] at hp
    · intro hnot
      simp only [definedReasonCodes, List.mem_cons, List.not_mem_nil, or_false,
        not_or] at hnot
      obtain ⟨e0, e1, e2, e3, e5, e6, e7, e8, e16, e17, e18, e19, e20,
        e207, e208, e209, e210⟩ := hnot
      simp [DisconnectReason.fromValueAndReader, e0, e1, e2, e3, e5, e6, e7, e8,
        e16, e17, e18, e19, e20, e207, e208, e209, e210]

/-- Writing at the end of the cursor buffer appends. -/
theorem cursorWrite_append (data bytes : List Nat) (pos : Nat)
    (h : pos = data.length) : cursorWrite data pos bytes = data ++ bytes := by
  subst h
  unfold cursorWrite
  rw [List.take_length, List.drop_eq_nil_of_le (by omega), List.append_nil]

/-- Patching bytes over a same-length region in the middle of the buffer. -/
theorem cursorWrite_patch (d mid tail bytes : List Nat)
    (hmid : mid.length = bytes.length) :
    cursorWrite (d ++ (mid ++ tail)) d.length bytes = d ++ (bytes ++ tail) := by
  unfold cursorWrite
  rw [List.take_left' rfl, ← List.append_assoc,
    show d.length + bytes.length = (d ++ mid).length from by simp [hmid],
    List.drop_left' rfl, List.append_assoc]

/-- A flat `start_message` / raw payload / `end_message` sequence appends
exactly the message encoding. -/
theorem writeMessage_flat (w : PacketWriter) (tag : Nat) (payload : List Nat)
    (hpos : w.pos = w.data.length) :
    writeMessage w tag payload =
      ⟨w.data ++ encOne (tag, payload),
        w.data.length + (encOne (tag, payload)).length, w.messageStarts⟩ := by
  obtain ⟨data, pos, starts⟩ := w
  simp only at hpos
  subst hpos
  unfold writeMessage PacketWriter.startMessage
  simp only [PacketWriter.writeU16, PacketWriter.writeU8, PacketWriter.writeBytesRaw]
  rw [show u16le 65535 = [255, 255] from rfl]
  rw [cursorWrite_append data [255, 255] data.length rfl]
  rw [cursorWrite_append (data ++ [255, 255]) [tag % 256]
    (data.length + [255, 255].length) (by simp)]
  rw [cursorWrite_append ((data ++ [255, 255]) ++ [tag % 256]) payload
    ((data.length + [255, 255].length) + [tag % 256].length) (by simp)]
  unfold PacketWriter.endMessage
  simp only [List.length_cons, List.length_nil, List.append_assoc, List.cons_append,
    List.nil_append]
  rw [show data.length + (0 + 1 + 1) + (0 + 1) + payload.length - data.length - 3
      = payload.length from by omega]
  have hpatch := cursorWrite_patch data [255, 255] (tag % 256 :: payload)
    (u16le payload.length) rfl
  simp only [List.cons_append, List.nil_append] at hpatch
  rw [hpatch]
  simp only [PacketWriter.mk.injEq, encOne, u16le]
  refine ⟨by simp, by simp; omega, trivial⟩

/-- Folding flat message writes over a writer whose cursor sits at the end
appends the concatenated encodings. -/
theorem writeMessages_foldl (ps : List (Nat × List Nat)) (w : PacketWriter)
    (hpos : w.pos = w.data.length) :
    ps.foldl (fun w p => writeMessage w p.1 p.2) w =
      ⟨w.data ++ (ps.map encOne).flatten,
        w.data.length + ((ps.map encOne).flatten).length, w.messageStarts⟩ := by
  induction ps generalizing w with
  | nil =>
    obtain ⟨data, pos, starts⟩ := w
    simp only at hpos
    subst hpos
    simp
  | cons p ps ih =>
    rw [List.foldl_cons, writeMessage_flat w p.1 p.2 hpos, ih _ (by simp)]
    simp [List.append_assoc]
    omega

/-- Reading one message from the front of its encoding. -/
theorem readMessage_encOne (tag : Nat) (payload rest : List Nat)
    (hlen : payload.length < 65536) :
    readMessage (encOne (tag, payload) ++ rest) = .ok ((tag % 256, payload), rest) := by
  unfold encOne u16le readMessage
  simp only [List.append_assoc, List.cons_append, List.nil_append, readU16, readU8]
  rw [show payload.length % 256 + payload.length / 256 % 256 * 256
      = payload.length from by omega]
  unfold readSlice
  rw [if_pos (by simp), List.take_left, List.drop_left]

/-- One unfolding step of the message-reading loop on a non-empty buffer. -/
theorem readMessagesGo_succ (fuel : Nat) (bs : List Nat) (h : bs ≠ []) :
    readMessagesGo (fuel + 1) bs =
      match readMessage bs with
      | .error e => .error e
      | .ok ((tag, data), rest2) =>
        match readMessagesGo fuel rest2 with
        | .error e => .error e
        | .ok tail => .ok ((tag, data) :: tail) := by
  cases bs with
  | nil => exact absurd rfl h
  | cons b rest => rfl

/-- Decoding the concatenated encodings recovers the message sequence, with
any fuel at least the buffer length. -/
theorem readMessagesGo_encoded (ps : List (Nat × List Nat)) :
    ∀ fuel, (∀ p ∈ ps, p.1 < 256 ∧ p.2.length < 65536) →
      ((ps.map encOne).flatten).length ≤ fuel →
      readMessagesGo fuel ((ps.map encOne).flatten) = .ok ps := by
  induction ps with
  | nil => intro fuel _ _; simp [readMessagesGo]
  | cons p ps ih =>
    obtain ⟨tag, payload⟩ := p
    intro fuel hv hf
    obtain ⟨htag, hpay⟩ := hv _ (List.mem_cons_self _ _)
    have henc : (encOne (tag, payload)).length = 3 + payload.length := by
      simp only [encOne, u16le, List.length_append, List.length_cons, List.length_nil]
    rw [List.map_cons, List.flatten_cons] at hf ⊢
    rw [List.length_append, henc] at hf
    rcases fuel with _ | f
    · omega
    · have hne : encOne (tag, payload) ++ (ps.map encOne).flatten ≠ [] := by
        simp [encOne, u16le]
      simp only [readMessagesGo_succ f _ hne,
        readMessage_encOne tag payload ((ps.map encOne).flatten) hpay,
        Nat.mod_eq_of_lt htag]
      rw [ih f (fun q hq => hv q (List.mem_cons_of_mem _ hq)) (by omega)]

/-- Round-trip failure scheme for any 65536-byte payload: the u16 length
field is written as 0, so the first message reads back with an empty
payload. -/
theorem c5_roundtrip_fails_at_65536 (P : List Nat) (hP : P.length = 65536) :
    readMessages ((writeMessages [(5, P)]).finish) ≠ .ok [(5, P)] := by
  have hdata : (writeMessages [(5, P)]).finish = encOne (5, P) := by
    unfold writeMessages PacketWriter.finish
    rw [writeMessages_foldl _ PacketWriter.new rfl]
    simp [PacketWriter.new]
  have henc : encOne (5, P) = 0 :: 0 :: 5 :: P := by
    simp [encOne, u16le, hP]
  rw [hdata, henc]
  unfold readMessages
  rw [show (0 :: 0 :: 5 :: P).length = 65538 + 1 by simp [hP]]
  rw [readMessagesGo_succ 65538 _ (by exact fun hc => List.noConfusion hc)]
  have hrm : readMessage (0 :: 0 :: 5 :: P) = .ok ((5, []), P) := by
    simp [readMessage, readU16, readU8, readSlice]
  rw [hrm]
  show (match readMessagesGo 65538 P with
    | .error e => (.error e : Except ReadErr (List (Nat × List Nat)))
    | .ok tail => .ok ((5, []) :: tail)) ≠ .ok [(5, P)]
  rcases htail : readMessagesGo 65538 P with e | t
  · exact fun hc => Except.noConfusion hc
  · intro hc
    have hc2 : ((5 : Nat), ([] : List Nat)) :: t = [(5, P)] := by injection hc
    rw [List.cons_eq_cons] at hc2
    have h3 : ([] : List Nat) = P := congrArg Prod.snd hc2.1
    have h4 := congrArg List.length h3
    rw [hP] at h4
    simp at h4

/-- C5 (counterexample for an over-long payload): one message with a
65536-byte payload writes a u16 length field of 0 (the length is truncated
mod 2^16), so reading the buffer back does not return the original
sequence. -/
theorem c5_counterexample :
    readMessages ((writeMessages [(5, List.replicate 65536 0)]).finish)
      ≠ .ok [(5, List.replicate 65536 0)] :=
  c5_roundtrip_fails_at_65536 (List.replicate 65536 0) (List.length_replicate _ _)

/-- C5 as amended: for every finite sequence of `(tag, payload)` pairs with
byte-sized tags and payloads shorter than 2^16 bytes (the u16 length
prefix), writing each pair as a message into one buffer and repeatedly
reading messages back returns exactly the original sequence. -/
theorem c5_amended (ps : List (Nat × List Nat))
    (hvalid : ∀ p ∈ ps, p.1 < 256 ∧ p.2.length < 65536) :
    readMessages ((writeMessages ps).finish) = .ok ps := by
  unfold writeMessages PacketWriter.finish readMessages
  rw [writeMessages_foldl ps PacketWriter.new rfl]
  simp only [PacketWriter.new, List.nil_append]
  exact readMessagesGo_encoded ps _ hvalid (le_refl _)

/-- Witness for C5 (amended) on a concrete two-message sequence. -/
theorem c5_amended_witness :
    readMessages ((writeMessages [(2, [7, 9]), (0, [])]).finish)
      = .ok [(2, [7, 9]), (0, [])] :=
  c5_amended [(2, [7, 9]), (0, [])] (by decide)

/-- Witness for C6 at a concrete alphabet string. -/
theorem c6_gameId_roundtrip_witness :
    (GameId.fromChars ['M', 'A', 'G', 'Y', 'Q', 'W']).displayChars
      = ['M', 'A', 'G', 'Y', 'Q', 'W'] :=
  c6_gameId_roundtrip ['M', 'A', 'G', 'Y', 'Q', 'W'] (by decide) (by decide)

end AmongUs
